import Mathlib

/-!
Verification of the generation loop of the codegeex4-candle driver
(src/main.rs), a shallow embedding of TextGeneration::run and its
sampling / penalty helpers.  Token ids are embedded as Nat, logits as
rationals.  The model, tokenizer and random stream are opaque external
capabilities and appear as function parameters.
-/

namespace CG

/-- A token id in the vocabulary of the model (u32 in the source). -/
abbrev Token := Nat

/-- Embeds main.rs lines 93 to 94: the slice of the running sequence fed to
the model at a decoding step.  The context size is the whole sequence at
step 0 and 1 afterwards; the slice starts at length minus context size,
with saturating subtraction (Nat subtraction saturates exactly as
saturating_sub does). -/
def nextInput (tokens : List Token) (index : Nat) : List Token :=
  let contextSize := if index > 0 then 1 else tokens.length
  tokens.drop (tokens.length - contextSize)

/-- Modelled from the spec: the per-logit rescaling of the repeat penalty
filter (the body of apply_repeat_penalty lives in the external
candle_transformers crate, not under src/).  A positive logit is divided
by the penalty, a negative one multiplied by it. -/
def scaleLogit (p : ℚ) (x : ℚ) : ℚ :=
  if 0 < x then x / p else if x < 0 then x * p else x

/-- Helper for applyRepeatPenalty: rewrite the logits list, position i of
the vocabulary being rescaled exactly when i occurs in the window. -/
def applyPenaltyFrom (p : ℚ) (window : List Token) : Nat → List ℚ → List ℚ
  | _, [] => []
  | i, x :: xs =>
      (if i ∈ window then scaleLogit p x else x) :: applyPenaltyFrom p window (i + 1) xs

/-- Modelled from the spec: apply_repeat_penalty (external crate, not under
src/).  Every token id occurring in the window has its logit rescaled by
scaleLogit, once per id regardless of how often the id repeats in the
window; all other logits are untouched. -/
def applyRepeatPenalty (logits : List ℚ) (p : ℚ) (window : List Token) : List ℚ :=
  applyPenaltyFrom p window 0 logits

/-- Embeds main.rs lines 101 to 111: the fast path returns the logits
unchanged when the penalty is exactly 1; otherwise the penalty is applied
over the trailing window tokens[len - repeatLastN ..] (saturating). -/
def penalizedLogits (p : ℚ) (lastN : Nat) (tokens : List Token) (logits : List ℚ) : List ℚ :=
  if p = 1 then logits
  else applyRepeatPenalty logits p (tokens.drop (tokens.length - lastN))

/-- Modelled from the spec: greedy selection of the LogitsProcessor
(external candle_transformers crate, not under src/): the index of the
maximum logit value, ties broken by the first occurrence in vocabulary
order. -/
def argmax (l : List ℚ) : Nat :=
  match l.maximum with
  | none => 0
  | some m => l.indexOf m

/-- Modelled from the spec: the sampling configuration held by the
LogitsProcessor, built once per session from seed, temperature and top-p
(main.rs line 46). -/
structure SamplingConfig where
  temperature : Option ℚ
  topP : Option ℚ
  seed : Nat
deriving DecidableEq

/-- Modelled from the spec: Sampler.select.  With temperature absent the
choice is the greedy argmax and no randomness is consumed; otherwise one
draw is taken from the seeded stream, abstracted as the function draw
applied at the current stream position, and the position advances by
one. -/
def sampleStep (cfg : SamplingConfig) (draw : Nat → List ℚ → Token)
    (pos : Nat) (logits : List ℚ) : Token × Nat :=
  match cfg.temperature with
  | none => (argmax logits, pos)
  | some _ => (draw pos logits, pos + 1)

/-- The per-session configuration and external capabilities consumed by
the generation loop: sampling configuration, the opaque model forward
capability (step index and input slice to logits), the tokenizer decode
capability, the seeded draw stream, the end-of-sequence token id looked
up once per prompt (main.rs lines 78 to 81), and the penalty
configuration. -/
structure GenCfg where
  sampling : SamplingConfig
  model : Nat → List Token → List ℚ
  decode : Token → String
  draw : Nat → List ℚ → Token
  eosToken : Token
  repeatPenalty : ℚ
  repeatLastN : Nat

/-- The mutable state of one decoding loop: the running token sequence,
the generated token count, the emitted text fragments (the result vector
of main.rs line 90), and the position of the random stream. -/
structure GenState where
  tokens : List Token
  generated : Nat
  fragments : List String
  pos : Nat
deriving DecidableEq

/-- Embeds the decoding loop of main.rs lines 92 to 133.  fuel counts the
remaining iterations of for index in 0..sample_len.  Each iteration
computes the context slice from the current sequence, obtains logits from
the model, applies the repeat penalty over the window of the current
sequence, samples the next token, appends it and counts it; when it
equals the end-of-sequence token the loop breaks before decoding, so no
fragment is emitted for it; otherwise the decoded fragment is appended to
the result. -/
def genLoop (c : GenCfg) : Nat → Nat → GenState → GenState
  | 0, _, st => st
  | fuel + 1, index, st =>
    let ctxt := nextInput st.tokens index
    let raw := c.model index ctxt
    let logits := penalizedLogits c.repeatPenalty c.repeatLastN st.tokens raw
    let s := sampleStep c.sampling c.draw st.pos logits
    if s.1 = c.eosToken then
      { tokens := st.tokens ++ [s.1], generated := st.generated + 1,
        fragments := st.fragments, pos := s.2 }
    else
      genLoop c fuel (index + 1)
        { tokens := st.tokens ++ [s.1], generated := st.generated + 1,
          fragments := st.fragments ++ [c.decode s.1], pos := s.2 }

/-- Embeds the per-prompt processing of main.rs lines 68 to 133: encode
the line, reject an empty encoding (the source panics at line 70;
modelled as an error value), otherwise run the decoding loop for at most
sampleLen steps starting from the encoded prompt.  pos is the position of
the session random stream when the prompt is accepted. -/
def runPrompt (c : GenCfg) (encode : String → List Token) (sampleLen : Nat)
    (pos : Nat) (line : String) : Except String GenState :=
  let toks := encode line
  if toks.isEmpty then
    Except.error "Empty prompts are not supported in the chatglm model."
  else
    Except.ok (genLoop c sampleLen 0
      { tokens := toks, generated := 0, fragments := [], pos := pos })

/-- Observable events of a session, in order: a prompt is accepted
(promptStart), a decoding step runs (step), a prompt finishes
(promptEnd), the kv cache of the model is reset (reset). -/
inductive Ev where
  | promptStart
  | step
  | promptEnd
  | reset
deriving DecidableEq

/-- The per-prompt summary reported at main.rs lines 134 to 142. -/
structure PromptOutcome where
  tokens : List Token
  generated : Nat
  fragments : List String
deriving DecidableEq

/-- Embeds the for loop over input lines of main.rs lines 65 to 143:
process each line in turn with runPrompt, threading the random stream
position, and record the event trace.  A panic (empty prompt) stops the
session immediately with an error and no further line is processed. -/
def runLines (c : GenCfg) (encode : String → List Token) (sampleLen : Nat) :
    List String → Nat → List Ev × List PromptOutcome × Option String
  | [], _ => ([], [], none)
  | line :: rest, pos =>
    match runPrompt c encode sampleLen pos line with
    | Except.error e => ([Ev.promptStart], [], some e)
    | Except.ok st =>
      let r := runLines c encode sampleLen rest st.pos
      (Ev.promptStart :: (List.replicate st.generated Ev.step ++ Ev.promptEnd :: r.1),
       { tokens := st.tokens, generated := st.generated, fragments := st.fragments } :: r.2.1,
       r.2.2)

/-- Embeds TextGeneration::run, main.rs lines 59 to 146: iterate over all
input lines, and after the loop over lines has finished invoke
reset_kv_cache exactly once (line 144).  When a prompt panics the
unwinding skips line 144, so no reset event is recorded. -/
def runSession (c : GenCfg) (encode : String → List Token) (sampleLen : Nat)
    (inputLines : List String) : List Ev × List PromptOutcome × Option String :=
  let r := runLines c encode sampleLen inputLines 0
  match r.2.2 with
  | some e => (r.1, r.2.1, some e)
  | none => (r.1 ++ [Ev.reset], r.2.1, none)

/-- Dropping all but the last element of a non-empty list leaves exactly
its last element. -/
theorem drop_length_sub_one_eq_getLast :
    ∀ (l : List Token) (h : l ≠ []), l.drop (l.length - 1) = [l.getLast h]
  | [_], _ => rfl
  | a :: b :: t, _ => by
      have ih := drop_length_sub_one_eq_getLast (b :: t) (by simp)
      simpa [List.getLast, Nat.succ_sub_one] using ih

/-- C1: the model input at step 0 is the entire token sequence, and at
every step with index greater than 0 it is exactly the single most
recently appended token (the last element of the sequence). -/
theorem c1_next_input (tokens : List Token) (index : Nat) (h : tokens ≠ []) :
    nextInput tokens 0 = tokens ∧
    (0 < index → nextInput tokens index = [tokens.getLast h]) := by
  constructor
  · simp [nextInput]
  · intro hi
    have : index > 0 := hi
    simp only [nextInput, if_pos this]
    exact drop_length_sub_one_eq_getLast tokens h

/-- C1 witness at the concrete sequence [11, 22] and step 1. -/
theorem c1_next_input_witness :
    nextInput [11, 22] 0 = [11, 22] ∧
    (0 < 1 → nextInput [11, 22] 1 = [(([11, 22] : List Token)).getLast (by simp)]) :=
  c1_next_input [11, 22] 1 (by simp)

/-- C5: with penalty factor exactly 1 the repeat penalty stage returns the
logits unchanged, for every lookback length and token sequence. -/
theorem c5_penalty_one_noop (lastN : Nat) (tokens : List Token) (logits : List ℚ) :
    penalizedLogits 1 lastN tokens logits = logits := by
  simp [penalizedLogits]

/-- applyPenaltyFrom rewrites position j of the list to the rescaled value
exactly when the absolute vocabulary index i + j occurs in the window. -/
theorem applyPenaltyFrom_getD (p : ℚ) (w : List Token) :
    ∀ (xs : List ℚ) (i j : Nat), j < xs.length →
      (applyPenaltyFrom p w i xs).getD j 0 =
        if (i + j) ∈ w then scaleLogit p (xs.getD j 0) else xs.getD j 0
  | [], _, j, hj => by simp at hj
  | x :: xs, i, 0, _ => by simp [applyPenaltyFrom]
  | x :: xs, i, j + 1, hj => by
      have ih := applyPenaltyFrom_getD p w xs (i + 1) j (by simpa using hj)
      have hshift : i + (j + 1) = (i + 1) + j := by omega
      simpa [applyPenaltyFrom, hshift] using ih

/-- C6: with penalty not equal to 1 the window is the last
min(lookback, length) tokens of the sequence, and each logit whose
vocabulary index occurs in that window is rescaled (positive divided by
the penalty, negative multiplied by it) once per index, while every
other logit is unchanged. -/
theorem c6_penalty_window (p : ℚ) (hp : p ≠ 1) (lastN : Nat) (tokens : List Token)
    (logits : List ℚ) (i : Nat) (hi : i < logits.length) :
    (tokens.drop (tokens.length - lastN)).length = min lastN tokens.length ∧
    (penalizedLogits p lastN tokens logits).getD i 0 =
      (if i ∈ tokens.drop (tokens.length - lastN)
       then scaleLogit p (logits.getD i 0)
       else logits.getD i 0) := by
  constructor
  · rw [List.length_drop]
    omega
  · rw [penalizedLogits, if_neg hp, applyRepeatPenalty]
    simpa using applyPenaltyFrom_getD p _ logits 0 i hi

/-- C6 witness, the example of the spec: penalty 6/5 = 1.2, lookback 2,
sequence ending [5, 5], logit 2 at index 5 becomes 2 / (6/5) = 5/3. -/
theorem c6_penalty_window_witness :
    (penalizedLogits (6/5) 2 [5, 5] [0, 0, 0, 0, 0, 2]).getD 5 0 = 5/3 := by
  have h := c6_penalty_window (6/5) (by norm_num) 2 [5, 5] [0, 0, 0, 0, 0, 2] 5 (by simp)
  rw [h.2]
  norm_num [scaleLogit]

/-- An index strictly before the first occurrence of a value does not hold
that value. -/
theorem getD_ne_of_lt_indexOf (l : List ℚ) (a : ℚ) (j : Nat) (hj : j < l.length)
    (hlt : j < l.indexOf a) : l.getD j 0 ≠ a := by
  induction l generalizing j with
  | nil => simp at hj
  | cons b t ih =>
    by_cases hba : b = a
    · subst hba
      simp [List.indexOf_cons_self] at hlt
    · cases j with
      | zero => simpa using hba
      | succ j =>
        have h1 : j < t.indexOf a := by
          rw [List.indexOf_cons_ne _ hba] at hlt
          omega
        have h2 : j < t.length := by simpa using hj
        simpa using ih j h2 h1

/-- The maximum of a non-empty list, as an element. -/
theorem maximum_some_of_ne_nil (l : List ℚ) (h : l ≠ []) : ∃ m, l.maximum = some m := by
  cases hm : l.maximum with
  | bot => exact absurd (List.maximum_eq_none.1 hm) h
  | coe m => exact ⟨m, rfl⟩

/-- The value at the argmax index is the list maximum. -/
theorem getD_argmax_eq_maximum (l : List ℚ) (m : ℚ) (hm : l.maximum = some m) :
    l.getD (argmax l) 0 = m := by
  have hmem : m ∈ l := List.maximum_mem hm
  have hidx : l.indexOf m < l.length := List.indexOf_lt_length.2 hmem
  rw [argmax, hm]
  rw [List.getD_eq_getElem _ _ hidx]
  exact List.getElem_indexOf hidx

/-- Every entry of the list is at most the entry at the argmax index. -/
theorem getD_le_getD_argmax (l : List ℚ) (j : Nat) (hj : j < l.length) :
    l.getD j 0 ≤ l.getD (argmax l) 0 := by
  have hne : l ≠ [] := by
    intro h
    subst h
    simp at hj
  obtain ⟨m, hm⟩ := maximum_some_of_ne_nil l hne
  rw [getD_argmax_eq_maximum l m hm]
  have hjm : l.getD j 0 ∈ l := by
    rw [List.getD_eq_getElem _ _ hj]
    exact List.getElem_mem hj
  exact_mod_cast List.le_maximum_of_mem hjm hm

/-- Every entry strictly before the argmax index is strictly below the
maximum: ties are broken by the first occurrence. -/
theorem getD_lt_getD_argmax_of_lt (l : List ℚ) (j : Nat) (hj : j < argmax l) :
    l.getD j 0 < l.getD (argmax l) 0 := by
  have hne : l ≠ [] := by
    intro h
    subst h
    simp [argmax, List.maximum_nil] at hj
  obtain ⟨m, hm⟩ := maximum_some_of_ne_nil l hne
  have hmem : m ∈ l := List.maximum_mem hm
  have hidx : l.indexOf m < l.length := List.indexOf_lt_length.2 hmem
  have hjidx : j < l.indexOf m := by
    simpa [argmax, hm] using hj
  have hjlen : j < l.length := by
    omega
  have hle : l.getD j 0 ≤ l.getD (argmax l) 0 := getD_le_getD_argmax l j hjlen
  have hne2 : l.getD j 0 ≠ l.getD (argmax l) 0 := by
    rw [getD_argmax_eq_maximum l m hm]
    exact getD_ne_of_lt_indexOf l m j hjlen hjidx
  exact lt_of_le_of_ne hle hne2

/-- In greedy mode the generation loop never advances the random stream. -/
theorem genLoop_pos_greedy (c : GenCfg) (hc : c.sampling.temperature = none) :
    ∀ (fuel index : Nat) (st : GenState), (genLoop c fuel index st).pos = st.pos
  | 0, _, _ => rfl
  | fuel + 1, index, st => by
      rw [genLoop]
      simp only [sampleStep, hc]
      split
      · rfl
      · exact genLoop_pos_greedy c hc fuel (index + 1) _

/-- C7: with temperature absent the sampler returns the argmax of the
logits and leaves the stream position unchanged; the argmax is the index
of the maximum value, ties broken by the first occurrence in vocabulary
order; and across a whole greedy generation run the random stream
position never moves (no randomness is consumed). -/
theorem c7_greedy_argmax (cfg : SamplingConfig) (h : cfg.temperature = none)
    (draw : Nat → List ℚ → Token) (pos : Nat) (logits : List ℚ)
    (c : GenCfg) (hc : c.sampling.temperature = none) :
    sampleStep cfg draw pos logits = (argmax logits, pos) ∧
    (∀ j, j < logits.length → logits.getD j 0 ≤ logits.getD (argmax logits) 0) ∧
    (∀ j, j < argmax logits → logits.getD j 0 < logits.getD (argmax logits) 0) ∧
    (∀ (fuel index : Nat) (st : GenState), (genLoop c fuel index st).pos = st.pos) := by
  refine ⟨?_, ?_, ?_, ?_⟩
  · simp [sampleStep, h]
  · intro j hj
    exact getD_le_getD_argmax logits j hj
  · intro j hj
    exact getD_lt_getD_argmax_of_lt logits j hj
  · exact genLoop_pos_greedy c hc

/-- C7 witness at the logits [1, 3, 3]: the greedy choice is index 1,
the first of the two tied maximal entries, and the stream position 5 is
left untouched; a greedy generation run leaves any stream position
unchanged. -/
theorem c7_greedy_argmax_witness :
    argmax [1, 3, 3] = 1 ∧
    (sampleStep { temperature := none, topP := none, seed := 0 } (fun _ _ => 0) 5 [1, 3, 3] =
      (argmax [1, 3, 3], 5) ∧
    (∀ j, j < ([1, 3, 3] : List ℚ).length →
      ([1, 3, 3] : List ℚ).getD j 0 ≤ ([1, 3, 3] : List ℚ).getD (argmax [1, 3, 3]) 0) ∧
    (∀ j, j < argmax [1, 3, 3] →
      ([1, 3, 3] : List ℚ).getD j 0 < ([1, 3, 3] : List ℚ).getD (argmax [1, 3, 3]) 0) ∧
    (∀ (fuel index : Nat) (st : GenState),
      (genLoop { sampling := { temperature := none, topP := none, seed := 0 },
                 model := fun _ _ => [1], decode := fun _ => "a",
                 draw := fun _ _ => 0, eosToken := 99,
                 repeatPenalty := 1, repeatLastN := 64 } fuel index st).pos = st.pos)) :=
  ⟨by decide,
   c7_greedy_argmax { temperature := none, topP := none, seed := 0 } rfl
     (fun _ _ => 0) 5 [1, 3, 3]
     { sampling := { temperature := none, topP := none, seed := 0 },
       model := fun _ _ => [1], decode := fun _ => "a",
       draw := fun _ _ => 0, eosToken := 99,
       repeatPenalty := 1, repeatLastN := 64 } rfl⟩

/-- C2: whenever the sampled token equals the end-of-sequence id, the
iteration appends it to the sequence and counts it, but emits no
fragment for it and the loop ends at once, regardless of remaining
fuel. -/
theorem c2_eos_stops_generation (c : GenCfg) (fuel index : Nat) (st : GenState)
    (h : (sampleStep c.sampling c.draw st.pos
        (penalizedLogits c.repeatPenalty c.repeatLastN st.tokens
          (c.model index (nextInput st.tokens index)))).1 = c.eosToken) :
    genLoop c (fuel + 1) index st =
      { tokens := st.tokens ++ [c.eosToken], generated := st.generated + 1,
        fragments := st.fragments,
        pos := (sampleStep c.sampling c.draw st.pos
          (penalizedLogits c.repeatPenalty c.repeatLastN st.tokens
            (c.model index (nextInput st.tokens index)))).2 } := by
  rw [genLoop]
  simp only [h, if_pos]

/-- The stub configuration of the example scenario of the spec: greedy
mode, end-of-sequence id 3, a model whose logits favor id 3 at every
step, no penalty. -/
def c2Cfg : GenCfg :=
  { sampling := { temperature := none, topP := none, seed := 0 },
    model := fun _ _ => [0, 0, 0, 5],
    decode := fun _ => "x",
    draw := fun _ _ => 0,
    eosToken := 3,
    repeatPenalty := 1,
    repeatLastN := 64 }

/-- C2 witness, the scenario of the spec: prompt [1], maxTokens 2, stub
model favoring id 3 at step 0: exactly one step runs, no fragment is
emitted, and the generated count is 1. -/
theorem c2_eos_stops_generation_witness :
    genLoop c2Cfg 2 0 { tokens := [1], generated := 0, fragments := [], pos := 0 } =
      { tokens := [1, 3], generated := 1, fragments := [], pos := 0 } := by
  have h := c2_eos_stops_generation c2Cfg 1 0
    { tokens := [1], generated := 0, fragments := [], pos := 0 } (by decide)
  rw [h]
  decide

/-- A stub configuration whose end-of-sequence id is never sampled:
greedy mode, model logits favoring id 0, end id 99. -/
def c3Cfg : GenCfg :=
  { sampling := { temperature := none, topP := none, seed := 0 },
    model := fun _ _ => [1],
    decode := fun _ => "a",
    draw := fun _ _ => 0,
    eosToken := 99,
    repeatPenalty := 1,
    repeatLastN := 64 }

/-- C3 counterexample: in a session of two prompts the full event trace
contains a single reset event, at the very end of the session, so no
reset separates the end of the first prompt from the acceptance of the
second; in particular the reset count differs from the prompt count,
refuting once-per-prompt invocation. -/
theorem c3_counterexample :
    (runSession c3Cfg (fun _ => [7]) 1 ["a", "b"]).1 =
      [Ev.promptStart, Ev.step, Ev.promptEnd,
       Ev.promptStart, Ev.step, Ev.promptEnd, Ev.reset] ∧
    ¬ ((runSession c3Cfg (fun _ => [7]) 1 ["a", "b"]).1.count Ev.reset
        = (["a", "b"] : List String).length) := by
  constructor
  · decide
  · decide

/-- The per-line loop of the session never records a reset event. -/
theorem runLines_no_reset (c : GenCfg) (encode : String → List Token) (n : Nat) :
    ∀ (ls : List String) (pos : Nat),
      ((runLines c encode n ls pos).1.count Ev.reset) = 0
  | [], _ => rfl
  | line :: rest, pos => by
      rw [runLines]
      cases hr : runPrompt c encode n pos line with
      | error e => simp
      | ok st =>
          have ih := runLines_no_reset c encode n rest st.pos
          simp [List.count_cons, List.count_append, List.count_replicate, ih]

/-- When every line encodes to a non-empty sequence the session finishes
without error. -/
theorem runLines_err_none (c : GenCfg) (encode : String → List Token) (n : Nat) :
    ∀ (ls : List String) (pos : Nat), (∀ l ∈ ls, encode l ≠ []) →
      (runLines c encode n ls pos).2.2 = none
  | [], _, _ => rfl
  | line :: rest, pos, h => by
      rw [runLines]
      have hline : encode line ≠ [] := h line (by simp)
      have hok : ¬ (encode line).isEmpty = true := by
        simpa [List.isEmpty_iff] using hline
      rw [runPrompt]
      simp only [if_neg hok]
      exact runLines_err_none c encode n rest _ (fun l hl => h l (by simp [hl]))

/-- C3 amended: in a session whose prompts all encode non-empty, the
cache reset is invoked exactly once in the whole session, as its very
last event — after every prompt has been processed, never between
prompts and never mid-generation. -/
theorem c3_reset_once_per_session (c : GenCfg) (encode : String → List Token)
    (n : Nat) (ls : List String) (h : ∀ l ∈ ls, encode l ≠ []) :
    (runSession c encode n ls).1.count Ev.reset = 1 ∧
    (runSession c encode n ls).1.getLast? = some Ev.reset := by
  have herr := runLines_err_none c encode n ls 0 h
  have hcnt := runLines_no_reset c encode n ls 0
  rw [runSession]
  simp only [herr]
  constructor
  · simp [List.count_append, hcnt]
  · simp [List.getLast?_concat]

/-- C3 amended witness at a concrete one-prompt session. -/
theorem c3_reset_once_per_session_witness :
    (runSession c3Cfg (fun _ => [7]) 1 ["a"]).1.count Ev.reset = 1 ∧
    (runSession c3Cfg (fun _ => [7]) 1 ["a"]).1.getLast? = some Ev.reset :=
  c3_reset_once_per_session c3Cfg (fun _ => [7]) 1 ["a"] (by simp)

/-- Stub configuration for the empty-prompt behaviour. -/
def c4Cfg : GenCfg :=
  { sampling := { temperature := none, topP := none, seed := 0 },
    model := fun _ _ => [1],
    decode := fun _ => "a",
    draw := fun _ _ => 0,
    eosToken := 99,
    repeatPenalty := 1,
    repeatLastN := 64 }

/-- A tokenizer stub under which the empty line encodes to no tokens. -/
def c4Encode : String → List Token :=
  fun s => if s = "" then [] else [7]

/-- C4 counterexample: with a first line encoding to zero tokens and a
second well-formed line waiting, the session ends in the empty-prompt
panic: the error is session-fatal (the result error is not none), and no
prompt outcome is produced at all — the second line is never processed,
refuting the claim that the loop proceeds to await the next input
line. -/
theorem c4_counterexample :
    (runSession c4Cfg c4Encode 1 ["", "x"]).2.2 =
      some "Empty prompts are not supported in the chatglm model." ∧
    (runSession c4Cfg c4Encode 1 ["", "x"]).2.1 = [] ∧
    ¬ ((runSession c4Cfg c4Encode 1 ["", "x"]).2.2 = none) := by
  refine ⟨?_, ?_, ?_⟩
  · decide
  · decide
  · decide

/-- C4 amended: a prompt encoding to zero tokens panics with the
empty-prompt message; the panic terminates the whole session before any
later line is processed and before any cache reset. -/
theorem c4_empty_prompt_fatal (c : GenCfg) (encode : String → List Token)
    (n : Nat) (line : String) (rest : List String) (h : encode line = []) :
    runSession c encode n (line :: rest) =
      ([Ev.promptStart], [],
        some "Empty prompts are not supported in the chatglm model.") := by
  simp [runSession, runLines, runPrompt, h]

/-- C4 amended witness at the concrete session of the counterexample. -/
theorem c4_empty_prompt_fatal_witness :
    runSession c4Cfg c4Encode 1 ("" :: ["x"]) =
      ([Ev.promptStart], [],
        some "Empty prompts are not supported in the chatglm model.") :=
  c4_empty_prompt_fatal c4Cfg c4Encode 1 "" ["x"] (by decide)

/-- C8: two runs of one prompt with the same sampling and penalty
configuration, the same seeded draw stream, the same model capability,
the same tokenizer, the same length budget, the same stream position and
the same prompt line produce identical results — in particular identical
token sequences and identical emitted fragments. -/
theorem c8_determinism (cA cB : GenCfg) (eA eB : String → List Token)
    (nA nB posA posB : Nat) (lineA lineB : String)
    (hc : cA = cB) (he : eA = eB) (hn : nA = nB) (hp : posA = posB)
    (hl : lineA = lineB) :
    runPrompt cA eA nA posA lineA = runPrompt cB eB nB posB lineB := by
  subst hc he hn hp hl
  rfl

/-- C8 witness: two identical concrete runs coincide. -/
theorem c8_determinism_witness :
    runPrompt c2Cfg (fun _ => [1]) 2 0 "hello" =
      runPrompt c2Cfg (fun _ => [1]) 2 0 "hello" :=
  c8_determinism c2Cfg c2Cfg (fun _ => [1]) (fun _ => [1]) 2 2 0 0 "hello" "hello"
    rfl rfl rfl rfl rfl

/-- The decoding loop adds at most fuel to the generated count, and an
early stop leaves the end-of-sequence token last in the sequence. -/
theorem genLoop_generated_bound (c : GenCfg) (fuel index : Nat) (st : GenState) :
    (genLoop c fuel index st).generated ≤ st.generated + fuel ∧
    ((genLoop c fuel index st).generated < st.generated + fuel →
      (genLoop c fuel index st).tokens.getLast? = some c.eosToken) := by
  induction fuel generalizing index st with
  | zero =>
      constructor
      · simp [genLoop]
      · intro h
        simp [genLoop] at h
  | succ fuel ih =>
      rw [genLoop]
      split
      · next hs =>
          constructor
          · simp
          · intro _
            simp [List.getLast?_concat, hs]
      · next hs =>
          obtain ⟨ih1, ih2⟩ := ih (index + 1)
            { tokens := st.tokens ++
                [(sampleStep c.sampling c.draw st.pos
                  (penalizedLogits c.repeatPenalty c.repeatLastN st.tokens
                    (c.model index (nextInput st.tokens index)))).1],
              generated := st.generated + 1,
              fragments := st.fragments ++
                [c.decode (sampleStep c.sampling c.draw st.pos
                  (penalizedLogits c.repeatPenalty c.repeatLastN st.tokens
                    (c.model index (nextInput st.tokens index)))).1],
              pos := (sampleStep c.sampling c.draw st.pos
                (penalizedLogits c.repeatPenalty c.repeatLastN st.tokens
                  (c.model index (nextInput st.tokens index)))).2 }
          constructor
          · simp at ih1 ⊢
            omega
          · intro h
            apply ih2
            simp at h ⊢
            omega

/-- C9: for every fuel bound the decoding loop terminates (it is a total
function of its fuel) having executed at most fuel steps: the generated
count grows by at most the fuel, and the per-prompt run never reports
more generated tokens than the sample length; when the loop stops with
strictly fewer steps than the fuel allows, the last token of the final
sequence is the end-of-sequence token — the length budget and the
end-of-sequence token are the only automatic stopping conditions. -/
theorem c9_generation_bounded (c : GenCfg) (fuel index : Nat) (st : GenState)
    (encode : String → List Token) (pos : Nat) (line : String) :
    (genLoop c fuel index st).generated ≤ st.generated + fuel ∧
    ((genLoop c fuel index st).generated < st.generated + fuel →
      (genLoop c fuel index st).tokens.getLast? = some c.eosToken) ∧
    (∀ stF : GenState, runPrompt c encode fuel pos line = Except.ok stF →
      stF.generated ≤ fuel) := by
  refine ⟨(genLoop_generated_bound c fuel index st).1,
          (genLoop_generated_bound c fuel index st).2, ?_⟩
  intro stF hF
  rw [runPrompt] at hF
  by_cases he : (encode line).isEmpty = true
  · rw [if_pos he] at hF
    exact absurd hF (by simp)
  · rw [if_neg he] at hF
    have hF2 := Except.ok.inj hF
    have hb := (genLoop_generated_bound c fuel 0
      { tokens := encode line, generated := 0, fragments := [], pos := pos }).1
    rw [hF2] at hb
    simpa using hb

/-- C9 witness: with the eos-favoring stub and fuel 2 only one step runs,
so the early-stop case fires and the final token is the end id. -/
theorem c9_generation_bounded_witness :
    (genLoop c2Cfg 2 0
        { tokens := [1], generated := 0, fragments := [], pos := 0 }).tokens.getLast?
      = some c2Cfg.eosToken :=
  (c9_generation_bounded c2Cfg 2 0
    { tokens := [1], generated := 0, fragments := [], pos := 0 }
    (fun _ => [1]) 0 "hello").2.1 (by decide)

/-- The decoding loop only ever appends: the final sequence is the
starting sequence followed by a block of generated tokens whose length
equals the increase of the generated count and is bounded by the fuel. -/
theorem genLoop_append_block (c : GenCfg) : ∀ (fuel index : Nat) (st : GenState),
    ∃ g : List Token,
      (genLoop c fuel index st).tokens = st.tokens ++ g ∧
      (genLoop c fuel index st).generated = st.generated + g.length ∧
      g.length ≤ fuel := by
  intro fuel
  induction fuel with
  | zero => exact fun index st => ⟨[], by simp [genLoop]⟩
  | succ fuel ih =>
      intro index st
      rw [genLoop]
      split
      · next hs =>
          refine ⟨[c.eosToken], by simp [hs], by simp, by simp⟩
      · next hs =>
          obtain ⟨g, hg1, hg2, hg3⟩ := ih (index + 1) _
          refine ⟨(sampleStep c.sampling c.draw st.pos
              (penalizedLogits c.repeatPenalty c.repeatLastN st.tokens
                (c.model index (nextInput st.tokens index)))).1 :: g, ?_, ?_, ?_⟩
          · rw [hg1]
            simp
          · rw [hg2]
            simp
            omega
          · simp
            omega

/-- C10: each iteration of the decoding loop appends exactly one token
and increments the generated count by exactly one (the fuel-1 run); over
any number of steps the final sequence is the starting sequence followed
by the block of generated tokens, whose length is exactly the increase
of the generated count; and at the prompt level the final sequence
length is the prompt length plus the reported generated count while the
prompt prefix is left unmodified. -/
theorem c10_append_only (c : GenCfg) (fuel index : Nat) (st : GenState)
    (encode : String → List Token) (pos : Nat) (line : String) :
    ((genLoop c 1 index st).tokens.length = st.tokens.length + 1 ∧
     (genLoop c 1 index st).generated = st.generated + 1) ∧
    (∃ g : List Token,
      (genLoop c fuel index st).tokens = st.tokens ++ g ∧
      (genLoop c fuel index st).generated = st.generated + g.length ∧
      g.length ≤ fuel) ∧
    (∀ stF : GenState, runPrompt c encode fuel pos line = Except.ok stF →
      stF.tokens.length = (encode line).length + stF.generated ∧
      stF.tokens.take (encode line).length = encode line) := by
  refine ⟨?_, genLoop_append_block c fuel index st, ?_⟩
  · constructor
    · rw [genLoop]
      split
      · simp
      · simp [genLoop]
    · rw [genLoop]
      split
      · simp
      · simp [genLoop]
  · intro stF hF
    rw [runPrompt] at hF
    by_cases he : (encode line).isEmpty = true
    · rw [if_pos he] at hF
      exact absurd hF (by simp)
    · rw [if_neg he] at hF
      have hF2 := Except.ok.inj hF
      obtain ⟨g, hg1, hg2, _⟩ := genLoop_append_block c fuel 0
        { tokens := encode line, generated := 0, fragments := [], pos := pos }
      rw [← hF2]
      constructor
      · rw [hg1, hg2]
        simp
      · rw [hg1]
        simp

/-- C10 witness for the prompt-level conjunct at a concrete run. -/
theorem c10_append_only_witness :
    (genLoop c3Cfg 2 0
        { tokens := [1], generated := 0, fragments := [], pos := 0 }).tokens.take 1 = [1] := by
  have h := (c10_append_only c3Cfg 2 0
    { tokens := [1], generated := 0, fragments := [], pos := 0 }
    (fun _ => [1]) 0 "hi").2.2
    (genLoop c3Cfg 2 0 { tokens := [1], generated := 0, fragments := [], pos := 0 }) rfl
  simpa using h.2

end CG
